import Mathlib

/-!
Verification of the handraise-mcp core: redaction engine (`redaction.ts`),
policy engine (`policy.ts`), approval gate (`gate.ts`) and the ask-user
prompt bridge (`ask-user-bridge.ts`), shallowly embedded in Lean 4.
JavaScript values flowing through the redaction walker are modelled by a
tagged `JsonValue` type; objects are ordered association lists, matching
JavaScript's insertion-ordered string-keyed enumeration.
-/

namespace Handraise

/-- A JavaScript runtime value as seen by the redaction walker:
string, number, boolean, null, array, plain object (insertion-ordered
fields), or anything else (functions, undefined, ...), which the walker
renders as an unserializable marker. -/
inductive JsonValue where
  | str (s : String)
  | num (n : Int)
  | bool (b : Bool)
  | null
  | arr (xs : List JsonValue)
  | obj (fields : List (String × JsonValue))
  | unsupported
deriving Repr

/-- `ArgRedactionRule` from `redaction.ts`: either redact a key (with an
optional replacement) or a (nowhere-consumed) string-truncation rule. -/
inductive ArgRedactionRule where
  | redactKey (key : String) (replacement : Option String)
  | truncateStringRule (maxLen : Nat)
deriving Repr

/-- `ArgDisplayOptions` from `redaction.ts`. -/
structure ArgDisplayOptions where
  maxDepth : Nat
  maxStringLen : Nat
  maxArrayLen : Nat
  maxObjectKeys : Nat
  rules : List ArgRedactionRule
deriving Repr

/-- `DEFAULT_REPLACEMENT` from `redaction.ts`. -/
def DEFAULT_REPLACEMENT : String := "[REDACTED]"

/-- `defaultArgDisplayOptions()` from `redaction.ts`. -/
def defaultArgDisplayOptions : ArgDisplayOptions :=
  { maxDepth := 4
    maxStringLen := 500
    maxArrayLen := 50
    maxObjectKeys := 50
    rules :=
      [ .redactKey "apiKey" none
      , .redactKey "token" none
      , .redactKey "password" none ] }

/-- `applyKeyRedactions` from `redaction.ts`: first `redactKey` rule whose
key equals `key` wins; its replacement defaults to `DEFAULT_REPLACEMENT`. -/
def applyKeyRedactions (key : String) (rules : List ArgRedactionRule) : Option String :=
  match rules with
  | [] => none
  | rule :: rest =>
    match rule with
    | .redactKey k repl =>
        if key == k then some (repl.getD DEFAULT_REPLACEMENT)
        else applyKeyRedactions key rest
    | .truncateStringRule _ => applyKeyRedactions key rest

/-- `truncateString` from `redaction.ts`. -/
def truncateString (value : String) (maxLen : Nat) : String :=
  if value.length ≤ maxLen then value
  else value.take maxLen ++ "...[TRUNCATED]"

/-- `walk` from `redaction.ts`: the depth-bounded recursive display
sanitizer. -/
def walk (value : JsonValue) (opts : ArgDisplayOptions) (depth : Nat) : JsonValue :=
  if depth > opts.maxDepth then .str "[TRUNCATED_DEPTH]"
  else
    match value with
    | .str s => .str (truncateString s opts.maxStringLen)
    | .num n => .num n
    | .bool b => .bool b
    | .null => .null
    | .arr xs =>
        let sliced := xs.take opts.maxArrayLen
        let mapped := sliced.attach.map (fun v => walk v.1 opts (depth + 1))
        .arr (if xs.length > sliced.length then mapped ++ [.str "[TRUNCATED_ARRAY]"] else mapped)
    | .obj fields =>
        let kept := fields.take opts.maxObjectKeys
        let out := kept.attach.map (fun kv =>
          match applyKeyRedactions kv.1.1 opts.rules with
          | some r => (kv.1.1, JsonValue.str r)
          | none => (kv.1.1, walk kv.1.2 opts (depth + 1)))
        .obj (if fields.length > kept.length then out ++ [("__truncated__", .bool true)] else out)
    | .unsupported => .str "[UNSERIALIZABLE]"
termination_by sizeOf value
decreasing_by
  all_goals simp_wf
  · rename_i xs
    have hmem : v.1 ∈ xs := (List.take_sublist _ _).subset v.2
    have h1 := List.sizeOf_lt_of_mem hmem
    omega
  · rename_i fields
    have hmem : kv.1 ∈ fields := (List.take_sublist _ _).subset kv.2
    have h1 := List.sizeOf_lt_of_mem hmem
    have h2 : sizeOf kv.1.2 < sizeOf kv.1 := by
      obtain ⟨⟨k, v⟩, hkv⟩ := kv
      simp only [Prod.mk.sizeOf_spec]
      omega
    omega

/-- `prepareArgsForDisplay` from `redaction.ts`. -/
def prepareArgsForDisplay (input : JsonValue) (opts : ArgDisplayOptions) : JsonValue :=
  walk input opts 0

/-- How `walk` treats one retained object entry: redact the value if the
key matches a `redactKey` rule, otherwise recurse. -/
def walkEntry (opts : ArgDisplayOptions) (depth : Nat) (kv : String × JsonValue) :
    String × JsonValue :=
  match applyKeyRedactions kv.1 opts.rules with
  | some r => (kv.1, JsonValue.str r)
  | none => (kv.1, walk kv.2 opts (depth + 1))

/-! ## Unfolding lemmas for `walk` -/

theorem walk_depth_exceeded (v : JsonValue) (opts : ArgDisplayOptions) (depth : Nat)
    (h : depth > opts.maxDepth) : walk v opts depth = .str "[TRUNCATED_DEPTH]" := by
  rw [walk.eq_def]
  simp [h]

theorem walk_str (opts : ArgDisplayOptions) (depth : Nat) (s : String)
    (h : depth ≤ opts.maxDepth) :
    walk (.str s) opts depth = .str (truncateString s opts.maxStringLen) := by
  rw [walk.eq_def]
  simp [Nat.not_lt.mpr h]

theorem walk_num (opts : ArgDisplayOptions) (depth : Nat) (n : Int)
    (h : depth ≤ opts.maxDepth) : walk (.num n) opts depth = .num n := by
  rw [walk.eq_def]
  simp [Nat.not_lt.mpr h]

theorem walk_bool (opts : ArgDisplayOptions) (depth : Nat) (b : Bool)
    (h : depth ≤ opts.maxDepth) : walk (.bool b) opts depth = .bool b := by
  rw [walk.eq_def]
  simp [Nat.not_lt.mpr h]

theorem walk_null (opts : ArgDisplayOptions) (depth : Nat)
    (h : depth ≤ opts.maxDepth) : walk .null opts depth = .null := by
  rw [walk.eq_def]
  simp [Nat.not_lt.mpr h]

theorem walk_unsupported (opts : ArgDisplayOptions) (depth : Nat)
    (h : depth ≤ opts.maxDepth) :
    walk .unsupported opts depth = .str "[UNSERIALIZABLE]" := by
  rw [walk.eq_def]
  simp [Nat.not_lt.mpr h]

theorem walk_arr (opts : ArgDisplayOptions) (depth : Nat) (xs : List JsonValue)
    (h : depth ≤ opts.maxDepth) :
    walk (.arr xs) opts depth =
      .arr (if opts.maxArrayLen < xs.length
            then (xs.take opts.maxArrayLen).map (fun v => walk v opts (depth + 1))
                   ++ [.str "[TRUNCATED_ARRAY]"]
            else (xs.take opts.maxArrayLen).map (fun v => walk v opts (depth + 1))) := by
  have hmap : (xs.take opts.maxArrayLen).attach.map
      (fun v => walk v.1 opts (depth + 1)) =
      (xs.take opts.maxArrayLen).map (fun v => walk v opts (depth + 1)) :=
    List.attach_map_val _ (fun v => walk v opts (depth + 1))
  rw [walk.eq_def]
  simp only [Nat.not_lt.mpr h, if_false]
  rw [hmap]
  congr 1
  simp only [gt_iff_lt, List.length_take]
  rcases Nat.lt_or_ge opts.maxArrayLen xs.length with hlt | hge
  · rw [if_pos hlt, if_pos (by omega : min opts.maxArrayLen xs.length < xs.length)]
  · rw [if_neg (Nat.not_lt.mpr hge),
        if_neg (by omega : ¬ min opts.maxArrayLen xs.length < xs.length)]

theorem walk_obj (opts : ArgDisplayOptions) (depth : Nat)
    (fields : List (String × JsonValue)) (h : depth ≤ opts.maxDepth) :
    walk (.obj fields) opts depth =
      .obj (if opts.maxObjectKeys < fields.length
            then (fields.take opts.maxObjectKeys).map (walkEntry opts depth)
                   ++ [("__truncated__", .bool true)]
            else (fields.take opts.maxObjectKeys).map (walkEntry opts depth)) := by
  have hmap : (fields.take opts.maxObjectKeys).attach.map
      (fun kv =>
        match applyKeyRedactions kv.1.1 opts.rules with
        | some r => (kv.1.1, JsonValue.str r)
        | none => (kv.1.1, walk kv.1.2 opts (depth + 1))) =
      (fields.take opts.maxObjectKeys).map (walkEntry opts depth) :=
    List.attach_map_val _ (walkEntry opts depth)
  rw [walk.eq_def]
  simp only [Nat.not_lt.mpr h, if_false]
  rw [hmap]
  congr 1
  simp only [gt_iff_lt, List.length_take]
  rcases Nat.lt_or_ge opts.maxObjectKeys fields.length with hlt | hge
  · rw [if_pos hlt, if_pos (by omega : min opts.maxObjectKeys fields.length < fields.length)]
  · rw [if_neg (Nat.not_lt.mpr hge),
        if_neg (by omega : ¬ min opts.maxObjectKeys fields.length < fields.length)]

/-! ## Redaction rule helpers -/

/-- Does this rule redact the key `key`? (mirrors the two `continue`
conditions inside `applyKeyRedactions`). -/
def isRedactKeyFor (key : String) : ArgRedactionRule → Bool
  | .redactKey k _ => key == k
  | .truncateStringRule _ => false

/-- The replacement a rule produces (`rule.replacement ?? DEFAULT_REPLACEMENT`). -/
def ruleReplacement : ArgRedactionRule → String
  | .redactKey _ repl => repl.getD DEFAULT_REPLACEMENT
  | .truncateStringRule _ => DEFAULT_REPLACEMENT

/-- Is this a `redactKey` rule? -/
def isRedactKeyRule : ArgRedactionRule → Bool
  | .redactKey _ _ => true
  | .truncateStringRule _ => false

theorem applyKeyRedactions_eq_find (key : String) (rules : List ArgRedactionRule) :
    applyKeyRedactions key rules = (rules.find? (isRedactKeyFor key)).map ruleReplacement := by
  induction rules with
  | nil => rfl
  | cons rule rest ih =>
    cases rule with
    | redactKey k repl =>
      by_cases hk : key == k
      · simp [applyKeyRedactions, isRedactKeyFor, hk, List.find?, ruleReplacement]
      · simp only [applyKeyRedactions, isRedactKeyFor, List.find?, hk, if_false,
          Bool.false_eq_true, cond_false]
        exact ih
    | truncateStringRule m =>
      simp only [applyKeyRedactions, isRedactKeyFor, List.find?, cond_false]
      exact ih

theorem applyKeyRedactions_filter (key : String) (rules : List ArgRedactionRule) :
    applyKeyRedactions key (rules.filter isRedactKeyRule) = applyKeyRedactions key rules := by
  induction rules with
  | nil => rfl
  | cons rule rest ih =>
    cases rule with
    | redactKey k repl =>
      simp only [List.filter, isRedactKeyRule, applyKeyRedactions]
      by_cases hk : key == k
      · simp [applyKeyRedactions, hk]
      · simp [applyKeyRedactions, hk, ih]
    | truncateStringRule m =>
      simp only [List.filter, isRedactKeyRule, applyKeyRedactions]
      exact ih

/-- `walk` only consults the numeric limits of its options and the behavior
of `applyKeyRedactions` on its rule list. -/
theorem walk_congr_of_redactions_eq :
    ∀ (n : Nat) (v : JsonValue), sizeOf v ≤ n →
    ∀ (o1 o2 : ArgDisplayOptions) (depth : Nat),
      o1.maxDepth = o2.maxDepth → o1.maxStringLen = o2.maxStringLen →
      o1.maxArrayLen = o2.maxArrayLen → o1.maxObjectKeys = o2.maxObjectKeys →
      (∀ k, applyKeyRedactions k o1.rules = applyKeyRedactions k o2.rules) →
      walk v o1 depth = walk v o2 depth := by
  intro n
  induction n with
  | zero =>
    intro v hv
    exfalso
    cases v <;> simp at hv
  | succ n ih =>
    intro v hv o1 o2 depth hmd hms hma hmo hrules
    rcases Nat.lt_or_ge o2.maxDepth depth with hd | hd
    · rw [walk_depth_exceeded v o2 depth hd, walk_depth_exceeded v o1 depth (by omega)]
    · have hd1 : depth ≤ o1.maxDepth := by omega
      cases v with
      | str s => rw [walk_str o1 depth s hd1, walk_str o2 depth s hd, hms]
      | num m => rw [walk_num o1 depth m hd1, walk_num o2 depth m hd]
      | bool b => rw [walk_bool o1 depth b hd1, walk_bool o2 depth b hd]
      | null => rw [walk_null o1 depth hd1, walk_null o2 depth hd]
      | unsupported => rw [walk_unsupported o1 depth hd1, walk_unsupported o2 depth hd]
      | arr xs =>
        rw [walk_arr o1 depth xs hd1, walk_arr o2 depth xs hd, hma]
        have hmap : (xs.take o2.maxArrayLen).map (fun v => walk v o1 (depth + 1)) =
            (xs.take o2.maxArrayLen).map (fun v => walk v o2 (depth + 1)) := by
          apply List.map_eq_map_iff.mpr
          intro a ha
          have hmem : a ∈ xs := (List.take_sublist _ _).subset ha
          have h1 := List.sizeOf_lt_of_mem hmem
          have hsz : sizeOf (JsonValue.arr xs) = 1 + sizeOf xs := by simp
          exact ih a (by omega) o1 o2 (depth + 1) hmd hms hma hmo hrules
        rw [hmap]
      | obj fields =>
        rw [walk_obj o1 depth fields hd1, walk_obj o2 depth fields hd, hmo]
        have hmap : (fields.take o2.maxObjectKeys).map (walkEntry o1 depth) =
            (fields.take o2.maxObjectKeys).map (walkEntry o2 depth) := by
          apply List.map_eq_map_iff.mpr
          intro kv hkv
          have hmem : kv ∈ fields := (List.take_sublist _ _).subset hkv
          have h1 := List.sizeOf_lt_of_mem hmem
          have h2 : sizeOf kv.2 < sizeOf kv := by
            obtain ⟨k, v⟩ := kv
            simp only [Prod.mk.sizeOf_spec]
            omega
          have hsz : sizeOf (JsonValue.obj fields) = 1 + sizeOf fields := by simp
          unfold walkEntry
          rw [hrules kv.1]
          cases applyKeyRedactions kv.1 o2.rules with
          | some r => rfl
          | none =>
            have hw := ih kv.2 (by omega) o1 o2 (depth + 1) hmd hms hma hmo hrules
            simp [hw]
        rw [hmap]

/-- **C4**: in `prepareArgsForDisplay`, a retained object key that equals the
key of some `redactKey` rule (case-sensitively) is mapped to the first such
rule's replacement — `"[REDACTED]"` when the rule has none — the walker does
not recurse into the original value under that key (the output is invariant
under replacing that value), and the object output consists exactly of the
per-entry results plus an optional truncation flag. -/
theorem redactKey_replaces_and_never_recurses
    (opts : ArgDisplayOptions) (depth : Nat) (fields : List (String × JsonValue))
    (h : depth ≤ opts.maxDepth) :
    (walk (.obj fields) opts depth =
      .obj ((fields.take opts.maxObjectKeys).map (walkEntry opts depth) ++
        (if opts.maxObjectKeys < fields.length then [("__truncated__", .bool true)] else []))) ∧
    (∀ kv ∈ fields.take opts.maxObjectKeys, ∀ r : String,
        applyKeyRedactions kv.1 opts.rules = some r →
        walkEntry opts depth kv = (kv.1, .str r)) ∧
    (∀ (k r : String), applyKeyRedactions k opts.rules = some r ↔
        ∃ rule, opts.rules.find? (isRedactKeyFor k) = some rule ∧ ruleReplacement rule = r) ∧
    (∀ (l1 l2 : List (String × JsonValue)) (k : String) (v v' : JsonValue) (r : String),
        applyKeyRedactions k opts.rules = some r →
        walk (.obj (l1 ++ (k, v) :: l2)) opts depth =
          walk (.obj (l1 ++ (k, v') :: l2)) opts depth) := by
  refine ⟨?_, ?_, ?_, ?_⟩
  · rw [walk_obj opts depth fields h]
    by_cases hc : opts.maxObjectKeys < fields.length <;> simp [hc]
  · intro kv hkv r hr
    simp [walkEntry, hr]
  · intro k r
    simp [applyKeyRedactions_eq_find, Option.map_eq_some']
  · intro l1 l2 k v v' r hr
    rw [walk_obj opts depth _ h, walk_obj opts depth _ h]
    have hmap : (l1 ++ (k, v) :: l2).map (walkEntry opts depth) =
        (l1 ++ (k, v') :: l2).map (walkEntry opts depth) := by
      simp only [List.map_append, List.map_cons]
      have hent : walkEntry opts depth (k, v) = walkEntry opts depth (k, v') := by
        simp [walkEntry, hr]
      rw [hent]
    have hlen : (l1 ++ (k, v) :: l2).length = (l1 ++ (k, v') :: l2).length := by simp
    rw [List.map_take, List.map_take, hmap, hlen]

/-- Witness for C4 at a concrete input: the key "token" matched by the
default rules is replaced by the default marker. -/
theorem redactKey_replaces_and_never_recurses_witness :
    walkEntry defaultArgDisplayOptions 0 ("token", .str "secret") =
      ("token", .str "[REDACTED]") :=
  (redactKey_replaces_and_never_recurses defaultArgDisplayOptions 0
      [("token", .str "secret")] (by decide)).2.1 ("token", .str "secret")
    (by rw [show ([(("token" : String), JsonValue.str "secret")]).take
          defaultArgDisplayOptions.maxObjectKeys =
          [("token", JsonValue.str "secret")] from rfl]
        exact List.mem_singleton.mpr rfl)
    "[REDACTED]" (by rfl)

/-- **C8**: every truncation in the redaction walker is exact at its limit:
strings, arrays and objects exactly at their limit pass unmodified, at
limit+1 they are truncated with the corresponding marker, subtrees within
`maxDepth` are walked, and subtrees beyond it become the depth marker. -/
theorem truncation_exact_at_limits (opts : ArgDisplayOptions) (depth : Nat)
    (h : depth ≤ opts.maxDepth) :
    (∀ s : String, s.length = opts.maxStringLen →
        walk (.str s) opts depth = .str s) ∧
    (∀ s : String, s.length = opts.maxStringLen + 1 →
        walk (.str s) opts depth = .str (s.take opts.maxStringLen ++ "...[TRUNCATED]")) ∧
    (∀ xs : List JsonValue, xs.length = opts.maxArrayLen →
        walk (.arr xs) opts depth = .arr (xs.map (fun v => walk v opts (depth + 1)))) ∧
    (∀ xs : List JsonValue, xs.length = opts.maxArrayLen + 1 →
        walk (.arr xs) opts depth =
          .arr ((xs.take opts.maxArrayLen).map (fun v => walk v opts (depth + 1)) ++
            [.str "[TRUNCATED_ARRAY]"])) ∧
    (∀ fields : List (String × JsonValue), fields.length = opts.maxObjectKeys →
        walk (.obj fields) opts depth = .obj (fields.map (walkEntry opts depth))) ∧
    (∀ fields : List (String × JsonValue), fields.length = opts.maxObjectKeys + 1 →
        walk (.obj fields) opts depth =
          .obj ((fields.take opts.maxObjectKeys).map (walkEntry opts depth) ++
            [("__truncated__", .bool true)])) ∧
    (∀ (v : JsonValue) (d : Nat), opts.maxDepth < d →
        walk v opts d = .str "[TRUNCATED_DEPTH]") ∧
    (∀ input : JsonValue, prepareArgsForDisplay input opts = walk input opts 0) := by
  refine ⟨?_, ?_, ?_, ?_, ?_, ?_, ?_, ?_⟩
  · intro s hs
    rw [walk_str opts depth s h]
    simp [truncateString, hs]
  · intro s hs
    rw [walk_str opts depth s h]
    simp [truncateString, hs]
  · intro xs hxs
    rw [walk_arr opts depth xs h, if_neg (by omega), List.take_of_length_le (by omega)]
  · intro xs hxs
    rw [walk_arr opts depth xs h, if_pos (by omega)]
  · intro fields hf
    rw [walk_obj opts depth fields h, if_neg (by omega), List.take_of_length_le (by omega)]
  · intro fields hf
    rw [walk_obj opts depth fields h, if_pos (by omega)]
  · intro v d hd
    exact walk_depth_exceeded v opts d hd
  · intro input
    rfl

/-- Witness for C8 with limits set to 2: "ab" is kept, "abc" is cut, and a
value nested past `maxDepth` becomes the depth marker. -/
theorem truncation_exact_at_limits_witness :
    walk (.str "ab") ⟨2, 2, 2, 2, []⟩ 0 = .str "ab" ∧
    walk (.str "abc") ⟨2, 2, 2, 2, []⟩ 0 =
      .str (("abc" : String).take 2 ++ "...[TRUNCATED]") ∧
    walk .null ⟨2, 2, 2, 2, []⟩ 3 = .str "[TRUNCATED_DEPTH]" :=
  ⟨(truncation_exact_at_limits ⟨2, 2, 2, 2, []⟩ 0 (by decide)).1 "ab" (by decide),
   (truncation_exact_at_limits ⟨2, 2, 2, 2, []⟩ 0 (by decide)).2.1 "abc" (by decide),
   (truncation_exact_at_limits ⟨2, 2, 2, 2, []⟩ 0 (by decide)).2.2.2.2.2.2.1 .null 3
     (by decide)⟩

/-- **C10**: rules of kind `truncateStringRule` have no effect on
`prepareArgsForDisplay`: deleting them all from the rule list yields an
identical output, so only `redactKey` rules influence the result and string
truncation is governed solely by `maxStringLen`. -/
theorem truncateStringRules_inert (input : JsonValue) (opts : ArgDisplayOptions) :
    prepareArgsForDisplay input { opts with rules := opts.rules.filter isRedactKeyRule } =
      prepareArgsForDisplay input opts :=
  walk_congr_of_redactions_eq (sizeOf input) input (Nat.le_refl _) _ opts 0 rfl rfl rfl rfl
    (fun k => applyKeyRedactions_filter k opts.rules)

example : prepareArgsForDisplay (.obj [("token", .str "secret"), ("x", .num 3)])
    defaultArgDisplayOptions = .obj [("token", .str "[REDACTED]"), ("x", .num 3)] := by
  simp [prepareArgsForDisplay, walk.eq_def, defaultArgDisplayOptions, applyKeyRedactions,
    DEFAULT_REPLACEMENT, truncateString]

/-! ## Policy engine (`policy.ts`) -/

/-- `McpRiskClass` from `types.ts`. -/
inductive McpRiskClass where
  | low
  | medium
  | high
deriving Repr, DecidableEq

/-- `Partial<ArgDisplayOptions>` as it appears in `ToolRule.argDisplay`:
every field optional; an absent field leaves the default untouched. -/
structure ArgDisplayOverride where
  maxDepth : Option Nat := none
  maxStringLen : Option Nat := none
  maxArrayLen : Option Nat := none
  maxObjectKeys : Option Nat := none
  rules : Option (List ArgRedactionRule) := none
deriving Repr

/-- `ToolRule` from `policy.ts`. -/
structure ToolRule where
  toolName : String
  requireApproval : Option Bool := none
  risk : Option McpRiskClass := none
  argDisplay : Option ArgDisplayOverride := none
deriving Repr

/-- `McpApprovalPolicy` from `policy.ts`; the optional lists model the
optional fields (`allowlist?` etc.), with `?.includes` on an absent list
being falsy. -/
structure McpApprovalPolicy where
  defaultRequireApproval : Bool
  allowlist : Option (List String) := none
  denylist : Option (List String) := none
  tools : Option (List ToolRule) := none
deriving Repr

/-- `PolicyMatch` from `policy.ts`. -/
structure PolicyMatch where
  requireApproval : Bool
  risk : McpRiskClass
  argDisplay : ArgDisplayOptions
deriving Repr

/-- `defaultMcpApprovalPolicy()` from `policy.ts`. -/
def defaultMcpApprovalPolicy : McpApprovalPolicy :=
  { defaultRequireApproval := true
    allowlist := some []
    denylist := some []
    tools := some [] }

/-- `mergeArgDisplayOptions` from `policy.ts`: object spread of the
override on the base, with `rules` explicitly `override.rules ?? base.rules`. -/
def mergeArgDisplayOptions (base : ArgDisplayOptions) (override : Option ArgDisplayOverride) :
    ArgDisplayOptions :=
  match override with
  | none => base
  | some o =>
    { maxDepth := o.maxDepth.getD base.maxDepth
      maxStringLen := o.maxStringLen.getD base.maxStringLen
      maxArrayLen := o.maxArrayLen.getD base.maxArrayLen
      maxObjectKeys := o.maxObjectKeys.getD base.maxObjectKeys
      rules := o.rules.getD base.rules }

/-- `matchPolicy` from `policy.ts`. -/
def matchPolicy (policy : McpApprovalPolicy) (toolName : String) : PolicyMatch :=
  if (policy.allowlist.getD []).contains toolName then
    { requireApproval := false
      risk := .low
      argDisplay := defaultArgDisplayOptions }
  else if (policy.denylist.getD []).contains toolName then
    { requireApproval := true
      risk := .high
      argDisplay := defaultArgDisplayOptions }
  else
    let rule := (policy.tools.getD []).find? (fun t => t.toolName == toolName)
    let requireApproval := (rule.bind (·.requireApproval)).getD policy.defaultRequireApproval
    let risk : McpRiskClass :=
      (rule.bind (·.risk)).getD (if requireApproval then .medium else .low)
    let base := defaultArgDisplayOptions
    let mergedArgDisplay := mergeArgDisplayOptions base (rule.bind (·.argDisplay))
    { requireApproval := requireApproval, risk := risk, argDisplay := mergedArgDisplay }

/-- **C2**: a tool name contained in the allowlist always matches with
`requireApproval = false`, low risk and default display options, whatever
the denylist and the per-tool rules hold. -/
theorem allowlist_never_requires_approval (policy : McpApprovalPolicy) (toolName : String)
    (h : (policy.allowlist.getD []).contains toolName = true) :
    matchPolicy policy toolName =
      { requireApproval := false
        risk := .low
        argDisplay := defaultArgDisplayOptions } := by
  unfold matchPolicy
  rw [h]
  rfl

/-- Witness for C2: the allowlisted tool "ls" never requires approval even
with a conflicting denylist entry and per-tool rule. -/
theorem allowlist_never_requires_approval_witness :
    matchPolicy
      { defaultRequireApproval := true
        allowlist := some ["ls"]
        denylist := some ["ls"]
        tools := some [{ toolName := "ls", requireApproval := some true,
                         risk := some .high }] } "ls" =
      { requireApproval := false
        risk := .low
        argDisplay := defaultArgDisplayOptions } :=
  allowlist_never_requires_approval _ "ls" (by rfl)

/-- **C7**: a tool name in neither list that matches a per-tool rule gets
`requireApproval = rule.requireApproval ?? default`, `risk = rule.risk ??
(medium if approval required, low otherwise)`, and display options equal to
the defaults with each numeric limit the rule sets overridden individually
and the rule's redaction-rule list, when present, fully replacing (never
concatenated with) the default rule list. -/
theorem tool_rule_match_shape (policy : McpApprovalPolicy) (toolName : String) (rule : ToolRule)
    (hallow : (policy.allowlist.getD []).contains toolName = false)
    (hdeny : (policy.denylist.getD []).contains toolName = false)
    (hrule : (policy.tools.getD []).find? (fun t => t.toolName == toolName) = some rule) :
    matchPolicy policy toolName =
      { requireApproval := rule.requireApproval.getD policy.defaultRequireApproval
        risk := rule.risk.getD
          (if rule.requireApproval.getD policy.defaultRequireApproval then .medium else .low)
        argDisplay :=
          { maxDepth := ((rule.argDisplay.bind (·.maxDepth)).getD
              defaultArgDisplayOptions.maxDepth)
            maxStringLen := ((rule.argDisplay.bind (·.maxStringLen)).getD
              defaultArgDisplayOptions.maxStringLen)
            maxArrayLen := ((rule.argDisplay.bind (·.maxArrayLen)).getD
              defaultArgDisplayOptions.maxArrayLen)
            maxObjectKeys := ((rule.argDisplay.bind (·.maxObjectKeys)).getD
              defaultArgDisplayOptions.maxObjectKeys)
            rules := ((rule.argDisplay.bind (·.rules)).getD
              defaultArgDisplayOptions.rules) } } := by
  simp only [matchPolicy, hallow, hdeny, hrule, Bool.false_eq_true, if_false,
    Option.some_bind]
  cases hav : rule.argDisplay with
  | none => simp [mergeArgDisplayOptions, hav]
  | some o => simp [mergeArgDisplayOptions, hav]

/-- Witness for C7: a per-tool rule for "callApi" that sets only
`maxStringLen` and a replacement rule list. -/
theorem tool_rule_match_shape_witness :
    matchPolicy
      { defaultRequireApproval := false
        tools := some [{ toolName := "callApi"
                         argDisplay := some { maxStringLen := some 7
                                              rules := some [.redactKey "secret" none] } }] }
      "callApi" =
      { requireApproval := false
        risk := .low
        argDisplay :=
          { maxDepth := 4
            maxStringLen := 7
            maxArrayLen := 50
            maxObjectKeys := 50
            rules := [.redactKey "secret" none] } } := by
  have h := tool_rule_match_shape
    { defaultRequireApproval := false
      tools := some [{ toolName := "callApi"
                       argDisplay := some { maxStringLen := some 7
                                            rules := some [.redactKey "secret" none] } }] }
    "callApi"
    { toolName := "callApi"
      argDisplay := some { maxStringLen := some 7
                           rules := some [.redactKey "secret" none] } }
    (by rfl) (by rfl) (by rfl)
  rw [h]
  rfl

/-! ## Approval gate (`gate.ts`)

The gate's effects in one call of `executeWithApproval` are modelled as a
pure function of the injected collaborators: the policy, the `summarize`
function, the fresh `traceId` (from the injected `randomUUID`), the clock
value, the decision adapter (`opts.handraise.requestApproval`) and the
executor. The run records the approval request built (if any), the logger
events emitted, the calls passed to the executor, and the overall result. -/

/-- `McpToolCall` from `types.ts`. -/
structure McpToolCall where
  toolName : String
  args : JsonValue
deriving Repr

/-- `McpApprovalRequest` from `types.ts`. -/
structure McpApprovalRequest where
  traceId : String
  toolName : String
  summary : String
  risk : McpRiskClass
  displayArgs : JsonValue
  createdAtMs : Nat
deriving Repr

/-- `McpApprovalDecision` from `types.ts`, with the tag kept as an open
string so that ill-formed adapter return values (neither "approve" nor
"deny") are representable, as `assertValidDecision` defends against. -/
structure McpApprovalDecision where
  decision : String
  overrideArgs : Option JsonValue := none
  reason : Option String := none
deriving Repr

/-- `McpHumanApprovalDeniedError` from `errors.ts` (its carried fields). -/
structure McpHumanApprovalDeniedError where
  traceId : String
  toolName : String
  reason : Option String
deriving Repr

/-- A structured logger event (`logger.info` / `logger.warn` payloads). -/
inductive GateEvent where
  | requested (traceId toolName : String) (risk : McpRiskClass)
  | denied (traceId toolName : String) (reason : Option String)
  | approved (traceId toolName : String)
deriving Repr

/-- How one `executeWithApproval` call can end: a result, a denial error,
the invalid-decision error, or the executor's own failure propagated. -/
inductive GateFailure (ε : Type) where
  | denied (e : McpHumanApprovalDeniedError)
  | invalidDecision
  | execFailure (e : ε)

/-- Trace of one `executeWithApproval` call. -/
structure GateRun (ε ρ : Type) where
  request : Option McpApprovalRequest
  events : List GateEvent
  executedCalls : List McpToolCall
  result : Except (GateFailure ε) ρ

/-- `assertValidDecision` from `gate.ts`, as a predicate: `true` iff the
function returns instead of throwing. -/
def assertValidDecision (decision : McpApprovalDecision) : Bool :=
  decision.decision == "approve" || decision.decision == "deny"

/-- The `McpApprovalRequest` built in step 3 of `executeWithApproval`. -/
def buildApprovalRequest (summarize : McpToolCall → String) (traceId : String)
    (nowMs : Nat) (call : McpToolCall) (mtch : PolicyMatch) : McpApprovalRequest :=
  { traceId := traceId
    toolName := call.toolName
    summary := summarize call
    risk := mtch.risk
    displayArgs := prepareArgsForDisplay call.args mtch.argDisplay
    createdAtMs := nowMs }

/-- Lift an executor outcome into the gate's result type: success and
failure are propagated unchanged. -/
def liftExecResult {ε ρ : Type} : Except ε ρ → Except (GateFailure ε) ρ
  | .ok r => .ok r
  | .error e => .error (.execFailure e)

/-- `executeWithApproval` from `gate.ts`. -/
def executeWithApproval {ε ρ : Type} (policy : McpApprovalPolicy)
    (summarize : McpToolCall → String) (traceId : String) (nowMs : Nat)
    (handraise : McpApprovalRequest → McpApprovalDecision)
    (executor : McpToolCall → Except ε ρ) (call : McpToolCall) : GateRun ε ρ :=
  let mtch := matchPolicy policy call.toolName
  if mtch.requireApproval = false then
    { request := none
      events := []
      executedCalls := [call]
      result := liftExecResult (executor call) }
  else
    let req := buildApprovalRequest summarize traceId nowMs call mtch
    let requestedEvent := GateEvent.requested traceId call.toolName mtch.risk
    let decision := handraise req
    if assertValidDecision decision = false then
      { request := some req
        events := [requestedEvent]
        executedCalls := []
        result := .error .invalidDecision }
    else if decision.decision == "deny" then
      { request := some req
        events := [requestedEvent, .denied traceId call.toolName decision.reason]
        executedCalls := []
        result := .error (.denied { traceId := traceId
                                    toolName := call.toolName
                                    reason := decision.reason }) }
    else
      let args := decision.overrideArgs.getD call.args
      let executedCall : McpToolCall := { call with args := args }
      { request := some req
        events := [requestedEvent, .approved traceId call.toolName]
        executedCalls := [executedCall]
        result := liftExecResult (executor executedCall) }

/-- A policy requiring approval for every tool, as in
`defaultMcpApprovalPolicy` but with the optional lists absent. -/
def samplePolicy : McpApprovalPolicy := { defaultRequireApproval := true }

/-- A concrete summarize function for witnesses. -/
def sampleSummarize : McpToolCall → String := fun call => "Run MCP tool " ++ call.toolName

/-- **C1**: with a policy match requiring approval and an adapter that
denies the built request, `executeWithApproval` never invokes the executor
and fails with the denial error whose traceId equals the traceId of the
emitted approval request, and whose toolName and reason are the call's tool
name and the decision's reason. -/
theorem deny_blocks_executor {ε ρ : Type} (policy : McpApprovalPolicy)
    (summarize : McpToolCall → String) (traceId : String) (nowMs : Nat)
    (handraise : McpApprovalRequest → McpApprovalDecision)
    (executor : McpToolCall → Except ε ρ) (call : McpToolCall)
    (hreq : (matchPolicy policy call.toolName).requireApproval = true)
    (hdeny : (handraise (buildApprovalRequest summarize traceId nowMs call
        (matchPolicy policy call.toolName))).decision = "deny") :
    (executeWithApproval policy summarize traceId nowMs handraise executor call).executedCalls
        = [] ∧
    ∃ req,
      (executeWithApproval policy summarize traceId nowMs handraise executor call).request
          = some req ∧
      req.traceId = traceId ∧
      (executeWithApproval policy summarize traceId nowMs handraise executor call).result
          = .error (.denied { traceId := req.traceId
                              toolName := call.toolName
                              reason := (handraise req).reason }) ∧
      GateEvent.denied req.traceId call.toolName ((handraise req).reason)
          ∈ (executeWithApproval policy summarize traceId nowMs handraise executor call).events := by
  have hvalid : assertValidDecision (handraise (buildApprovalRequest summarize traceId nowMs
      call (matchPolicy policy call.toolName))) = true := by
    simp [assertValidDecision, hdeny]
  refine ⟨?_, buildApprovalRequest summarize traceId nowMs call (matchPolicy policy call.toolName),
    ?_, rfl, ?_, ?_⟩ <;>
    simp [executeWithApproval, hreq, hvalid, hdeny] <;>
    simp [buildApprovalRequest]

/-- Witness for C1: a denying adapter on a default-deny policy leaves the
executor uninvoked. -/
theorem deny_blocks_executor_witness :
    (executeWithApproval samplePolicy sampleSummarize "trace-1" 5
        (fun _ => { decision := "deny", reason := some "no" })
        (fun _ => (Except.ok 0 : Except Unit Nat))
        { toolName := "writeFile", args := .null }).executedCalls = [] :=
  (deny_blocks_executor samplePolicy sampleSummarize "trace-1" 5
    (fun _ => { decision := "deny", reason := some "no" })
    (fun _ => (Except.ok 0 : Except Unit Nat))
    { toolName := "writeFile", args := .null } (by rfl) (by rfl)).1

/-- **C3**: with a policy match requiring approval and an approving
decision, `executeWithApproval` invokes the executor exactly once, on a
call with the original tool name and with `overrideArgs ?? original args`
(full replacement, never a merge), and the executor's result or failure is
propagated unchanged. -/
theorem approve_executes_once {ε ρ : Type} (policy : McpApprovalPolicy)
    (summarize : McpToolCall → String) (traceId : String) (nowMs : Nat)
    (handraise : McpApprovalRequest → McpApprovalDecision)
    (executor : McpToolCall → Except ε ρ) (call : McpToolCall)
    (hreq : (matchPolicy policy call.toolName).requireApproval = true)
    (happrove : (handraise (buildApprovalRequest summarize traceId nowMs call
        (matchPolicy policy call.toolName))).decision = "approve") :
    (executeWithApproval policy summarize traceId nowMs handraise executor call).executedCalls
        = [{ toolName := call.toolName
             args := (handraise (buildApprovalRequest summarize traceId nowMs call
               (matchPolicy policy call.toolName))).overrideArgs.getD call.args }] ∧
    (executeWithApproval policy summarize traceId nowMs handraise executor call).result
        = liftExecResult (executor
            { toolName := call.toolName
              args := (handraise (buildApprovalRequest summarize traceId nowMs call
                (matchPolicy policy call.toolName))).overrideArgs.getD call.args }) ∧
    (∀ r : ρ, executor
        { toolName := call.toolName
          args := (handraise (buildApprovalRequest summarize traceId nowMs call
            (matchPolicy policy call.toolName))).overrideArgs.getD call.args } = .ok r →
      (executeWithApproval policy summarize traceId nowMs handraise executor call).result
        = .ok r) ∧
    (∀ e : ε, executor
        { toolName := call.toolName
          args := (handraise (buildApprovalRequest summarize traceId nowMs call
            (matchPolicy policy call.toolName))).overrideArgs.getD call.args } = .error e →
      (executeWithApproval policy summarize traceId nowMs handraise executor call).result
        = .error (.execFailure e)) := by
  have hvalid : assertValidDecision (handraise (buildApprovalRequest summarize traceId nowMs
      call (matchPolicy policy call.toolName))) = true := by
    simp [assertValidDecision, happrove]
  have hnotdeny : ((handraise (buildApprovalRequest summarize traceId nowMs call
      (matchPolicy policy call.toolName))).decision == "deny") = false := by
    simp [happrove]
  refine ⟨?_, ?_, ?_, ?_⟩
  · simp [executeWithApproval, hreq, hvalid, hnotdeny]
  · simp [executeWithApproval, hreq, hvalid, hnotdeny]
  · intro r hr
    simp [executeWithApproval, hreq, hvalid, hnotdeny, hr, liftExecResult]
  · intro e he
    simp [executeWithApproval, hreq, hvalid, hnotdeny, he, liftExecResult]

/-- Witness for C3: an approving adapter with overrideArgs makes the
executor run exactly once on the fully replaced args. -/
theorem approve_executes_once_witness :
    (executeWithApproval samplePolicy sampleSummarize "trace-2" 5
        (fun _ => { decision := "approve", overrideArgs := some (.str "override") })
        (fun c => (Except.ok c.args : Except Unit JsonValue))
        { toolName := "writeFile", args := .null }).executedCalls =
      [{ toolName := "writeFile", args := .str "override" }] :=
  (approve_executes_once samplePolicy sampleSummarize "trace-2" 5
    (fun _ => { decision := "approve", overrideArgs := some (.str "override") })
    (fun c => (Except.ok c.args : Except Unit JsonValue))
    { toolName := "writeFile", args := .null } (by rfl) (by rfl)).1

/-- **C6**: when the decision adapter returns a value whose tag is neither
"approve" nor "deny", the gated call fails with the invalid-decision error
and the executor is never invoked; the decision is not coerced. -/
theorem invalid_decision_is_fatal {ε ρ : Type} (policy : McpApprovalPolicy)
    (summarize : McpToolCall → String) (traceId : String) (nowMs : Nat)
    (handraise : McpApprovalRequest → McpApprovalDecision)
    (executor : McpToolCall → Except ε ρ) (call : McpToolCall)
    (hreq : (matchPolicy policy call.toolName).requireApproval = true)
    (hnotapprove : (handraise (buildApprovalRequest summarize traceId nowMs call
        (matchPolicy policy call.toolName))).decision ≠ "approve")
    (hnotdeny : (handraise (buildApprovalRequest summarize traceId nowMs call
        (matchPolicy policy call.toolName))).decision ≠ "deny") :
    (executeWithApproval policy summarize traceId nowMs handraise executor call).executedCalls
        = [] ∧
    (executeWithApproval policy summarize traceId nowMs handraise executor call).result
        = .error .invalidDecision := by
  have hvalid : assertValidDecision (handraise (buildApprovalRequest summarize traceId nowMs
      call (matchPolicy policy call.toolName))) = false := by
    simp [assertValidDecision, hnotapprove, hnotdeny]
  constructor <;> simp [executeWithApproval, hreq, hvalid]

/-- Witness for C6: an adapter answering with tag "maybe" is fatal. -/
theorem invalid_decision_is_fatal_witness :
    (executeWithApproval samplePolicy sampleSummarize "trace-3" 5
        (fun _ => { decision := "maybe" })
        (fun _ => (Except.ok 0 : Except Unit Nat))
        { toolName := "writeFile", args := .null }).result
      = .error .invalidDecision :=
  (invalid_decision_is_fatal samplePolicy sampleSummarize "trace-3" 5
    (fun _ => { decision := "maybe" })
    (fun _ => (Except.ok 0 : Except Unit Nat))
    { toolName := "writeFile", args := .null } (by rfl) (by decide) (by decide)).2

/-! ## Prompt bridge (`ask-user-bridge.ts`)

Each bridge operation is a read-modify-write of the whole state document
under a file lock; the filesystem and lock are collaborators, so each
operation is modelled as the pure state mutator executed inside
`withStateLock`. A mutator that throws leaves the document unwritten, so a
failed enqueue is modelled as `Except.error` with the unchanged state. -/

/-- `AskUserOption` from `ask-user.ts`. -/
structure AskUserOption where
  label : String
  description : Option String := none
deriving Repr, DecidableEq

/-- `AskUserBridgePrompt` from `ask-user-bridge.ts`: the `AskUserToolInput`
payload plus `id` and `createdAt`. -/
structure AskUserBridgePrompt where
  id : String
  createdAt : String
  header : Option String := none
  question : String
  options : Option (List AskUserOption) := none
  multiple : Option Bool := none
  custom : Option Bool := none
  customLabel : Option String := none
deriving Repr, DecidableEq

/-- The `action` field of `AskUserBridgeResponse`. -/
inductive AskUserResponseAction where
  | accept
  | decline
  | cancel
deriving Repr, DecidableEq

/-- `AskUserBridgeResponse` from `ask-user-bridge.ts`; `answer` is
`string | string[]`. -/
structure AskUserBridgeResponse where
  promptId : String
  action : AskUserResponseAction
  answer : Option (String ⊕ List String) := none
  selectedOptions : Option (List String) := none
  customResponse : Option String := none
  respondedAt : String
deriving Repr, DecidableEq

/-- `AskUserBridgeState` from `ask-user-bridge.ts`. -/
structure AskUserBridgeState where
  version : Nat
  prompts : List AskUserBridgePrompt
  responses : List AskUserBridgeResponse
deriving Repr, DecidableEq

/-- `emptyState()` from `ask-user-bridge.ts`. -/
def emptyState : AskUserBridgeState := { version := 1, prompts := [], responses := [] }

/-- `listPendingFromState` from `ask-user-bridge.ts`: prompts with no
response yet (the `Set` of responded ids modelled by list membership). -/
def listPendingFromState (state : AskUserBridgeState) : List AskUserBridgePrompt :=
  let responded := state.responses.map (·.promptId)
  state.prompts.filter (fun item => !(responded.contains item.id))

/-- The mutator of `enqueueAskUserPrompt` from `ask-user-bridge.ts`:
`.error` models the mutator throwing (the document is then not written). -/
def enqueueAskUserPrompt (state : AskUserBridgeState) (prompt : AskUserBridgePrompt) :
    Except String AskUserBridgeState :=
  let pending := listPendingFromState state
  if 1 ≤ pending.length ∧ (pending.any fun item => item.id == prompt.id) = false then
    .error "Only one pending askUser prompt is allowed at a time."
  else
    let keyExists := state.prompts.any fun item => item.id == prompt.id
    if keyExists then .ok state
    else .ok { state with prompts := state.prompts ++ [prompt] }

/-- The mutator of `submitAskUserResponse` from `ask-user-bridge.ts`:
returns the accepted flag and the updated state. -/
def submitAskUserResponse (state : AskUserBridgeState) (response : AskUserBridgeResponse) :
    Bool × AskUserBridgeState :=
  let hasPrompt := state.prompts.any fun item => item.id == response.promptId
  if hasPrompt = false then (false, state)
  else
    match state.responses.findIdx? (fun item => item.promptId == response.promptId) with
    | some index => (true, { state with responses := state.responses.set index response })
    | none => (true, { state with responses := state.responses ++ [response] })

/-- The mutator of `takeAskUserResponse` from `ask-user-bridge.ts`: consume
the matching response, if any, and drop the matching prompt. -/
def takeAskUserResponse (state : AskUserBridgeState) (promptId : String) :
    Option AskUserBridgeResponse × AskUserBridgeState :=
  match state.responses.findIdx? (fun item => item.promptId == promptId) with
  | none => (none, state)
  | some index =>
    match state.responses[index]? with
    | none => (none, state)
    | some response =>
      (some response,
        { state with
          responses := state.responses.eraseIdx index
          prompts := state.prompts.filter (fun item => !(item.id == promptId)) })

/-- One bridge operation, as offered by the module's public surface.
`listPending` sorts a copy and leaves the document unchanged;
`waitForResponse` only repeats `take`. -/
inductive BridgeOp where
  | enqueue (prompt : AskUserBridgePrompt)
  | listPending
  | submit (response : AskUserBridgeResponse)
  | take (promptId : String)

/-- The state after one operation: a throwing mutator (failed enqueue)
leaves the persisted document unchanged. -/
def applyOp (state : AskUserBridgeState) : BridgeOp → AskUserBridgeState
  | .enqueue prompt =>
    match enqueueAskUserPrompt state prompt with
    | .ok s => s
    | .error _ => state
  | .listPending => state
  | .submit response => (submitAskUserResponse state response).2
  | .take promptId => (takeAskUserResponse state promptId).2

/-- A document state reachable from the empty state through bridge
operations. -/
def ReachableBridgeState (s : AskUserBridgeState) : Prop :=
  ∃ ops : List BridgeOp, s = ops.foldl applyOp emptyState

theorem set_getElem?_self {α : Type} :
    ∀ (l : List α) (i : Nat) (a : α), l[i]? = some a → l.set i a = l := by
  intro l
  induction l with
  | nil => intro i a h; simp at h
  | cons x xs ih =>
    intro i a h
    cases i with
    | zero =>
      simp only [List.getElem?_cons_zero, Option.some.injEq] at h
      simp [List.set, h]
    | succ n =>
      simp only [List.getElem?_cons_succ] at h
      simp [List.set, ih n a h]

theorem map_eraseIdx_comm {α β : Type} (f : α → β) :
    ∀ (l : List α) (i : Nat), (l.eraseIdx i).map f = (l.map f).eraseIdx i := by
  intro l
  induction l with
  | nil => intro i; simp
  | cons x xs ih =>
    intro i
    cases i with
    | zero => simp [List.eraseIdx]
    | succ n => simp [List.eraseIdx, ih n]

theorem contains_eraseIdx_of_ne :
    ∀ (l : List String) (i : Nat) (x y : String),
      l[i]? = some x → (y == x) = false → (l.eraseIdx i).contains y = l.contains y := by
  intro l
  induction l with
  | nil => intro i x y h; simp at h
  | cons a t ih =>
    intro i x y h hne
    cases i with
    | zero =>
      simp only [List.getElem?_cons_zero, Option.some.injEq] at h
      subst h
      show t.contains y = (a :: t).contains y
      rw [List.contains_cons, hne, Bool.false_or]
    | succ n =>
      simp only [List.getElem?_cons_succ] at h
      show (a :: t.eraseIdx n).contains y = (a :: t).contains y
      rw [List.contains_cons, List.contains_cons, ih n x y h hne]

theorem exists_of_findIdx?_eq_some {α : Type} {p : α → Bool} :
    ∀ {l : List α} {i : Nat}, l.findIdx? p = some i → ∃ a, l[i]? = some a ∧ p a = true := by
  intro l
  induction l with
  | nil => intro i h; simp [List.findIdx?] at h
  | cons x xs ih =>
    intro i h
    rw [List.findIdx?_cons] at h
    by_cases hp : p x = true
    · rw [if_pos hp] at h
      cases h
      exact ⟨x, by simp, hp⟩
    · rw [if_neg hp, List.findIdx?_succ] at h
      cases hfi : xs.findIdx? p with
      | none => rw [hfi] at h; simp at h
      | some j =>
        rw [hfi] at h
        simp only [Option.map_some', Option.some.injEq] at h
        subst h
        obtain ⟨a, ha, hpa⟩ := ih hfi
        exact ⟨a, by simpa using ha, hpa⟩

theorem listPending_push (v : Nat) (ps : List AskUserBridgePrompt)
    (rs : List AskUserBridgeResponse) (p : AskUserBridgePrompt) :
    listPendingFromState ⟨v, ps ++ [p], rs⟩ =
      listPendingFromState ⟨v, ps, rs⟩ ++
        (if (rs.map (·.promptId)).contains p.id then [] else [p]) := by
  simp only [listPendingFromState, List.filter_append, List.filter_cons, List.filter_nil]
  cases hc : (rs.map (·.promptId)).contains p.id <;> simp

theorem listPending_append_response (v : Nat) (ps : List AskUserBridgePrompt)
    (rs : List AskUserBridgeResponse) (r : AskUserBridgeResponse) :
    listPendingFromState ⟨v, ps, rs ++ [r]⟩ =
      (listPendingFromState ⟨v, ps, rs⟩).filter (fun q => !(q.id == r.promptId)) := by
  simp only [listPendingFromState]
  rw [List.filter_filter]
  apply List.filter_congr
  intro q hq
  simp only [List.map_append, List.map_cons, List.map_nil, List.contains_eq_any_beq,
    List.any_append, List.any_cons, List.any_nil, Bool.or_false, Bool.not_or]
  rw [Bool.and_comm]

theorem listPending_set_same_id (v : Nat) (ps : List AskUserBridgePrompt)
    (rs : List AskUserBridgeResponse) (i : Nat) (r old : AskUserBridgeResponse)
    (hget : rs[i]? = some old) (hsame : old.promptId = r.promptId) :
    listPendingFromState ⟨v, ps, rs.set i r⟩ = listPendingFromState ⟨v, ps, rs⟩ := by
  simp only [listPendingFromState]
  have hmap : (rs.set i r).map (·.promptId) = rs.map (·.promptId) := by
    rw [List.map_set]
    apply set_getElem?_self
    rw [List.getElem?_map, hget, Option.map_some', hsame]
  rw [hmap]

theorem listPending_take_state (v : Nat) (ps : List AskUserBridgePrompt)
    (rs : List AskUserBridgeResponse) (i : Nat) (pid : String)
    (resp : AskUserBridgeResponse) (hget : rs[i]? = some resp)
    (hresp : resp.promptId = pid) :
    listPendingFromState ⟨v, ps.filter (fun q => !(q.id == pid)), rs.eraseIdx i⟩ =
      (listPendingFromState ⟨v, ps, rs⟩).filter (fun q => !(q.id == pid)) := by
  simp only [listPendingFromState]
  rw [List.filter_filter, List.filter_filter]
  apply List.filter_congr
  intro q hq
  by_cases hqp : (q.id == pid) = true
  · simp [hqp]
  · have hqp' : (q.id == pid) = false := by
      cases h : (q.id == pid)
      · rfl
      · exact absurd h hqp
    have hc : ((rs.eraseIdx i).map (·.promptId)).contains q.id =
        (rs.map (·.promptId)).contains q.id := by
      rw [map_eraseIdx_comm]
      apply contains_eraseIdx_of_ne _ i resp.promptId q.id
      · rw [List.getElem?_map, hget, Option.map_some']
      · rw [hresp]
        exact hqp'
    rw [hc, hqp']
    simp

/-- The single-pending-slot invariant: at most one prompt lacks a matching
response. -/
def bridgeInv (s : AskUserBridgeState) : Prop := (listPendingFromState s).length ≤ 1

theorem bridgeInv_applyOp (s : AskUserBridgeState) (op : BridgeOp) (h : bridgeInv s) :
    bridgeInv (applyOp s op) := by
  obtain ⟨v, ps, rs⟩ := s
  cases op with
  | listPending => exact h
  | enqueue p =>
    show bridgeInv (match enqueueAskUserPrompt ⟨v, ps, rs⟩ p with
      | .ok s' => s'
      | .error _ => ⟨v, ps, rs⟩)
    simp only [enqueueAskUserPrompt]
    by_cases hguard : 1 ≤ (listPendingFromState ⟨v, ps, rs⟩).length ∧
        ((listPendingFromState ⟨v, ps, rs⟩).any fun item => item.id == p.id) = false
    · rw [if_pos hguard]
      exact h
    · rw [if_neg hguard]
      by_cases hex : (ps.any fun item => item.id == p.id) = true
      · rw [if_pos hex]
        exact h
      · rw [if_neg hex]
        show bridgeInv ⟨v, ps ++ [p], rs⟩
        have hpend : listPendingFromState ⟨v, ps, rs⟩ = [] := by
          rcases Nat.eq_zero_or_pos (listPendingFromState ⟨v, ps, rs⟩).length with h0 | hpos
          · exact List.length_eq_zero.mp h0
          · exfalso
            apply hguard
            refine ⟨by omega, ?_⟩
            cases hany : (listPendingFromState ⟨v, ps, rs⟩).any fun item => item.id == p.id
            · rfl
            · exfalso
              apply hex
              rw [List.any_eq_true] at hany ⊢
              obtain ⟨q, hq, hbeq⟩ := hany
              simp only [listPendingFromState, List.mem_filter] at hq
              exact ⟨q, hq.1, hbeq⟩
        unfold bridgeInv
        rw [listPending_push, hpend]
        cases hc : (rs.map (·.promptId)).contains p.id <;> simp
  | submit r =>
    show bridgeInv (submitAskUserResponse ⟨v, ps, rs⟩ r).2
    simp only [submitAskUserResponse]
    by_cases hasP : (ps.any fun item => item.id == r.promptId) = false
    · rw [if_pos hasP]
      exact h
    · rw [if_neg hasP]
      cases hfind : rs.findIdx? (fun item => item.promptId == r.promptId) with
      | some i =>
        obtain ⟨old, hget, hpold⟩ := exists_of_findIdx?_eq_some hfind
        show bridgeInv ⟨v, ps, rs.set i r⟩
        unfold bridgeInv
        rw [listPending_set_same_id v ps rs i r old hget (by simpa using hpold)]
        exact h
      | none =>
        show bridgeInv ⟨v, ps, rs ++ [r]⟩
        unfold bridgeInv
        rw [listPending_append_response]
        exact le_trans (List.length_filter_le _ _) h
  | take pid =>
    show bridgeInv (takeAskUserResponse ⟨v, ps, rs⟩ pid).2
    simp only [takeAskUserResponse]
    cases hfind : rs.findIdx? (fun item => item.promptId == pid) with
    | none => exact h
    | some i =>
      obtain ⟨resp, hget, hpresp⟩ := exists_of_findIdx?_eq_some hfind
      simp only [hget]
      show bridgeInv ⟨v, ps.filter (fun item => !(item.id == pid)), rs.eraseIdx i⟩
      unfold bridgeInv
      rw [listPending_take_state v ps rs i pid resp hget (by simpa using hpresp)]
      exact le_trans (List.length_filter_le _ _) h

theorem bridgeInv_foldl :
    ∀ (ops : List BridgeOp) (s0 : AskUserBridgeState), bridgeInv s0 →
      bridgeInv (ops.foldl applyOp s0) := by
  intro ops
  induction ops with
  | nil => intro s0 h; exact h
  | cons op rest ih => intro s0 h; exact ih _ (bridgeInv_applyOp s0 op h)

/-- Concrete prompts and a response for bridge scenarios. -/
def cexPrompt1 : AskUserBridgePrompt :=
  { id := "p1", createdAt := "2026-02-11T00:00:00Z", question := "q1" }

/-- Second concrete prompt. -/
def cexPrompt2 : AskUserBridgePrompt :=
  { id := "p2", createdAt := "2026-02-11T00:00:01Z", question := "q2" }

/-- A concrete accepted response to `cexPrompt1`. -/
def cexResponse1 : AskUserBridgeResponse :=
  { promptId := "p1", action := .accept, respondedAt := "2026-02-11T00:00:02Z" }

/-- Counterexample to C5 as stated: in the reachable state where "p1" is
already answered and "p2" is pending, re-enqueueing the already-present id
"p1" does not succeed — the mutator throws the capacity error. -/
theorem reenqueue_answered_id_fails :
    ReachableBridgeState
      ([BridgeOp.enqueue cexPrompt1, .submit cexResponse1, .enqueue cexPrompt2].foldl
        applyOp emptyState) ∧
    cexPrompt1.id ∈
      (([BridgeOp.enqueue cexPrompt1, .submit cexResponse1, .enqueue cexPrompt2].foldl
        applyOp emptyState).prompts.map (·.id)) ∧
    enqueueAskUserPrompt
      ([BridgeOp.enqueue cexPrompt1, .submit cexResponse1, .enqueue cexPrompt2].foldl
        applyOp emptyState) cexPrompt1 =
      .error "Only one pending askUser prompt is allowed at a time." :=
  ⟨⟨[BridgeOp.enqueue cexPrompt1, .submit cexResponse1, .enqueue cexPrompt2], rfl⟩,
   by decide, by rfl⟩

/-- **C5** (amended): every reachable bridge state has at most one pending
prompt; enqueue of a fresh id fails exactly when some prompt is pending;
re-enqueueing an id already present succeeds and leaves the state unchanged
provided nothing is pending or that id itself is the pending one, and fails
when a different prompt is pending; and enqueue of a fresh prompt succeeds
once every existing prompt has a matching response. -/
theorem bridge_single_pending_slot :
    (∀ s : AskUserBridgeState, ReachableBridgeState s →
        (listPendingFromState s).length ≤ 1) ∧
    (∀ (s : AskUserBridgeState) (p : AskUserBridgePrompt),
        (∀ q ∈ s.prompts, q.id ≠ p.id) →
        ((∃ msg, enqueueAskUserPrompt s p = .error msg) ↔
          listPendingFromState s ≠ [])) ∧
    (∀ (s : AskUserBridgeState) (p : AskUserBridgePrompt),
        p.id ∈ s.prompts.map (·.id) →
        (listPendingFromState s = [] ∨ p.id ∈ (listPendingFromState s).map (·.id)) →
        enqueueAskUserPrompt s p = .ok s) ∧
    (∀ (s : AskUserBridgeState) (p : AskUserBridgePrompt),
        listPendingFromState s ≠ [] → p.id ∉ (listPendingFromState s).map (·.id) →
        ∃ msg, enqueueAskUserPrompt s p = .error msg) ∧
    (∀ (s : AskUserBridgeState) (p : AskUserBridgePrompt),
        (∀ q ∈ s.prompts, ∃ r ∈ s.responses, r.promptId = q.id) →
        (∀ q ∈ s.prompts, q.id ≠ p.id) →
        enqueueAskUserPrompt s p = .ok { s with prompts := s.prompts ++ [p] }) := by
  refine ⟨?_, ?_, ?_, ?_, ?_⟩
  · rintro s ⟨ops, rfl⟩
    exact bridgeInv_foldl ops emptyState (by simp [bridgeInv, listPendingFromState, emptyState])
  · intro s p hfresh
    have hany : ((listPendingFromState s).any fun item => item.id == p.id) = false := by
      rw [List.any_eq_false]
      intro q hq
      simp only [listPendingFromState, List.mem_filter] at hq
      simp [hfresh q hq.1]
    simp only [enqueueAskUserPrompt]
    by_cases hp : 1 ≤ (listPendingFromState s).length ∧
        ((listPendingFromState s).any fun item => item.id == p.id) = false
    · rw [if_pos hp]
      constructor
      · intro _
        have := hp.1
        intro hnil
        rw [hnil] at this
        simp at this
      · intro _
        exact ⟨_, rfl⟩
    · rw [if_neg hp]
      have hlen : listPendingFromState s = [] := by
        rcases Decidable.em (1 ≤ (listPendingFromState s).length) with hl | hl
        · exact absurd ⟨hl, hany⟩ hp
        · exact List.length_eq_zero.mp (by omega)
      constructor
      · rintro ⟨msg, hmsg⟩
        split at hmsg <;> simp at hmsg
      · intro hne
        exact absurd hlen hne
  · intro s p hpresent hcond
    have hex : (s.prompts.any fun item => item.id == p.id) = true := by
      rw [List.any_eq_true]
      obtain ⟨q, hq, hqid⟩ := List.mem_map.mp hpresent
      exact ⟨q, hq, by simp [hqid]⟩
    have hguard : ¬(1 ≤ (listPendingFromState s).length ∧
        ((listPendingFromState s).any fun item => item.id == p.id) = false) := by
      rcases hcond with hemp | hpend
      · rintro ⟨h1, -⟩
        rw [hemp] at h1
        simp at h1
      · rintro ⟨-, hany⟩
        obtain ⟨q, hq, hqid⟩ := List.mem_map.mp hpend
        rw [List.any_eq_false] at hany
        have := hany q hq
        simp [hqid] at this
    simp only [enqueueAskUserPrompt]
    rw [if_neg hguard, if_pos hex]
  · intro s p hne hnotpend
    have h1 : 1 ≤ (listPendingFromState s).length := by
      have := List.length_pos.mpr hne
      omega
    have hany : ((listPendingFromState s).any fun item => item.id == p.id) = false := by
      rw [List.any_eq_false]
      intro q hq
      cases hbeq : (q.id == p.id)
      · simp
      · exfalso
        apply hnotpend
        exact List.mem_map.mpr ⟨q, hq, by simpa using hbeq⟩
    simp only [enqueueAskUserPrompt]
    rw [if_pos ⟨h1, hany⟩]
    exact ⟨_, rfl⟩
  · intro s p hans hfresh
    have hpend : listPendingFromState s = [] := by
      simp only [listPendingFromState]
      rw [List.filter_eq_nil_iff]
      intro q hq
      obtain ⟨r, hr, hrid⟩ := hans q hq
      simp
      exact ⟨r, hr, hrid⟩
    have hex : (s.prompts.any fun item => item.id == p.id) = false := by
      rw [List.any_eq_false]
      intro q hq
      simp [hfresh q hq]
    simp only [enqueueAskUserPrompt]
    rw [if_neg (by rw [hpend]; rintro ⟨hcon, -⟩; simp at hcon),
      if_neg (by simp [hex])]

/-- Witness for C5: after "p1" is answered, enqueueing the fresh "p2"
succeeds and appends it. -/
theorem bridge_single_pending_slot_witness :
    enqueueAskUserPrompt
        ([BridgeOp.enqueue cexPrompt1, .submit cexResponse1].foldl applyOp emptyState)
        cexPrompt2 =
      .ok { ([BridgeOp.enqueue cexPrompt1, .submit cexResponse1].foldl applyOp emptyState) with
            prompts := ([BridgeOp.enqueue cexPrompt1, .submit cexResponse1].foldl applyOp
              emptyState).prompts ++ [cexPrompt2] } :=
  bridge_single_pending_slot.2.2.2.2
    ([BridgeOp.enqueue cexPrompt1, .submit cexResponse1].foldl applyOp emptyState)
    cexPrompt2 (by decide) (by decide)

/-- **C9**: submitting a response whose promptId matches no prompt in the
document returns `false` and leaves the state unchanged. -/
theorem submit_unknown_id_rejected (s : AskUserBridgeState) (r : AskUserBridgeResponse)
    (h : ∀ q ∈ s.prompts, q.id ≠ r.promptId) :
    submitAskUserResponse s r = (false, s) := by
  have hany : (s.prompts.any fun item => item.id == r.promptId) = false := by
    rw [List.any_eq_false]
    intro q hq
    simp [h q hq]
  simp only [submitAskUserResponse]
  rw [if_pos hany]

/-- Witness for C9: a response for "p1" against the empty document is not
accepted and the document stays empty. -/
theorem submit_unknown_id_rejected_witness :
    submitAskUserResponse emptyState cexResponse1 = (false, emptyState) :=
  submit_unknown_id_rejected emptyState cexResponse1
    (fun q hq => absurd hq (List.not_mem_nil q))

end Handraise
